import Mathlib

/-!
Verification of the ossh honeypot's core algorithms: a shallow embedding of
`server.go` (corpus store, auth policy, capture saving, persistence) and of the
OverlayFS manager/session file (`OverlayFSManager.NewSession`, `OverlayFS.Mount`,
`OverlayFS.Close`, `OverlayFS.insideMerged` and the path-scoped file API).

Go strings are modelled as `List Char`; Go maps as association lists
(`List (GoStr × β)`, insertion ordered, matching Go map read/write semantics:
reading a missing key yields the zero value, writing inserts).
-/

/-- Go strings, modelled as lists of characters (ASCII in all inputs of interest,
where Go's byte-wise operations and `Char`-wise operations agree). -/
abbrev GoStr := List Char

/-- The whitespace predicate of Go's `unicode.IsSpace` restricted to the Latin-1
range it special-cases: \t \n \v \f \r space U+0085 U+00A0. -/
def isGoSpace (c : Char) : Bool :=
  c = ' ' || c = '\t' || c = '\n' || c.toNat = 11 || c.toNat = 12 || c = '\r' ||
    c.toNat = 133 || c.toNat = 160

/-- Go `strings.TrimSpace`: drop whitespace from both ends. -/
def trimSpace (s : GoStr) : GoStr :=
  ((s.dropWhile isGoSpace).reverse.dropWhile isGoSpace).reverse

/-- Go `strings.Split(s, sep)` for a single-character separator: the list of
maximal runs between occurrences of `c`; always non-empty. -/
def splitChar (c : Char) : GoStr → List GoStr
  | [] => [[]]
  | x :: xs =>
    match splitChar c xs with
    | [] => [[]]
    | h :: t => if x = c then [] :: h :: t else (x :: h) :: t

/-- Go `strings.Join(parts, sep)` for a single-character separator. -/
def joinSep (c : Char) : List GoStr → GoStr
  | [] => []
  | [s] => s
  | s :: rest => s ++ c :: joinSep c rest

/-- Association-list lookup (first match), modelling Go map indexing. -/
def lookupA {β : Type} : List (GoStr × β) → GoStr → Option β
  | [], _ => none
  | (k', v) :: t, k => if k' = k then some v else lookupA t k

/-- Go `_, ok := m[k]` membership test. -/
def hasKeyA {β : Type} (m : List (GoStr × β)) (k : GoStr) : Bool :=
  (lookupA m k).isSome

/-- Go map write `m[k] = v`: replace in place if present, else append. -/
def setA {β : Type} : List (GoStr × β) → GoStr → β → List (GoStr × β)
  | [], k, v => [(k, v)]
  | (k', v') :: t, k, v => if k' = k then (k, v) :: t else (k', v') :: setA t k v

/-- One of the four corpus multisets: `string → occurrence count`. -/
abbrev GoMap := List (GoStr × Nat)

/-- Go map read with zero default: `m[k]` for a counter map. -/
def getD (m : GoMap) (k : GoStr) : Nat := (lookupA m k).getD 0

/-- The shared body of `addFingerprint` / `addUser` / `addPassword` (server.go):
trim whitespace, silently drop the empty result, otherwise insert-or-increment. -/
def addMS (m : GoMap) (s : GoStr) : GoMap :=
  let s' := trimSpace s
  if s' = [] then m
  else
    let m' := if hasKeyA m s' then m else setA m s' 0
    setA m' s' (getD m' s' + 1)

-- basic lemmas about the association-list operations

theorem lookupA_setA {β : Type} (m : List (GoStr × β)) (k k' : GoStr) (v : β) :
    lookupA (setA m k v) k' = if k = k' then some v else lookupA m k' := by
  induction m with
  | nil =>
    simp only [setA, lookupA]
  | cons hd t ih =>
    obtain ⟨k₀, v₀⟩ := hd
    by_cases h₀ : k₀ = k
    · subst h₀
      simp only [setA, if_pos rfl, lookupA]
      by_cases h₁ : k₀ = k' <;> simp [h₁]
    · simp only [setA, if_neg h₀, lookupA, ih]
      by_cases h₁ : k₀ = k'
      · subst h₁
        have : ¬ k = k₀ := fun h => h₀ h.symm
        simp [this]
      · simp [h₁]

theorem getD_setA (m : GoMap) (k k' : GoStr) (v : Nat) :
    getD (setA m k v) k' = if k = k' then v else getD m k' := by
  simp only [getD, lookupA_setA]
  by_cases h : k = k' <;> simp [h]

theorem lookupA_append {β : Type} (m₁ m₂ : List (GoStr × β)) (k : GoStr) :
    lookupA (m₁ ++ m₂) k =
      match lookupA m₁ k with
      | some v => some v
      | none => lookupA m₂ k := by
  induction m₁ with
  | nil => simp [lookupA]
  | cons hd t ih =>
    obtain ⟨k₀, v₀⟩ := hd
    by_cases h : k₀ = k
    · simp [lookupA, h]
    · simp [lookupA, h, ih]

theorem setA_notMem {β : Type} (m : List (GoStr × β)) (k : GoStr) (v : β)
    (h : hasKeyA m k = false) : setA m k v = m ++ [(k, v)] := by
  induction m with
  | nil => simp [setA]
  | cons hd t ih =>
    obtain ⟨k₀, v₀⟩ := hd
    by_cases h₀ : k₀ = k
    · exfalso
      subst h₀
      have hk : hasKeyA ((k₀, v₀) :: t) k₀ = true := by
        simp [hasKeyA, lookupA]
      rw [h] at hk
      exact Bool.false_ne_true hk
    · have ht : hasKeyA t k = false := by
        have := h
        simp only [hasKeyA, lookupA, if_neg h₀] at this
        exact this
      simp [setA, h₀, ih ht]

theorem hasKeyA_append {β : Type} (m₁ m₂ : List (GoStr × β)) (k : GoStr) :
    hasKeyA (m₁ ++ m₂) k = (hasKeyA m₁ k || hasKeyA m₂ k) := by
  simp only [hasKeyA, lookupA_append]
  cases lookupA m₁ k <;> simp

theorem hasKeyA_iff_mem_keys {β : Type} (m : List (GoStr × β)) (k : GoStr) :
    hasKeyA m k = true ↔ k ∈ m.map Prod.fst := by
  induction m with
  | nil => simp [hasKeyA, lookupA]
  | cons hd t ih =>
    obtain ⟨k₀, v₀⟩ := hd
    simp only [List.map_cons, List.mem_cons]
    by_cases h₀ : k₀ = k
    · subst h₀
      constructor
      · intro _
        exact Or.inl rfl
      · intro _
        simp [hasKeyA, lookupA]
    · have hne : ¬ k = k₀ := fun h => h₀ h.symm
      simp only [hasKeyA, lookupA, if_neg h₀]
      simp only [hasKeyA] at ih
      rw [ih]
      constructor
      · exact fun h => Or.inr h
      · intro h
        cases h with
        | inl h => exact absurd h hne
        | inr h => exact h

theorem trimSpace_of_allSpace (p : GoStr) (h : ∀ c ∈ p, isGoSpace c = true) :
    trimSpace p = [] := by
  have hd : p.dropWhile isGoSpace = [] := List.dropWhile_eq_nil_iff.mpr h
  simp [trimSpace, hd]

/-! ## Path model: `path/filepath` on Unix, as used by the OverlayFS code -/

/-- Go `filepath.IsAbs` on Unix: the path starts with a slash. -/
def isRooted (s : GoStr) : Bool :=
  match s with
  | '/' :: _ => true
  | _ => false

/-- The element-stack pass of Go `filepath.Clean`: skip empty and `.` elements,
let `..` pop a previous element (or vanish at the root, or accumulate when the
path is relative). The accumulator holds processed elements in reverse. -/
def cleanStack (rooted : Bool) : List GoStr → List GoStr → List GoStr
  | acc, [] => acc.reverse
  | acc, c :: cs =>
    if c = [] ∨ c = ['.'] then cleanStack rooted acc cs
    else if c = ['.', '.'] then
      match acc with
      | [] => if rooted then cleanStack rooted [] cs else cleanStack rooted [['.', '.']] cs
      | top :: rest =>
        if top = ['.', '.'] then cleanStack rooted (c :: acc) cs
        else cleanStack rooted rest cs
    else cleanStack rooted (c :: acc) cs

/-- Go `filepath.Clean` for Unix paths. -/
def goClean (s : GoStr) : GoStr :=
  let rooted := isRooted s
  let comps := cleanStack rooted [] (splitChar '/' s)
  match rooted, comps with
  | true, [] => ['/']
  | false, [] => ['.']
  | true, cs => '/' :: joinSep '/' cs
  | false, cs => joinSep '/' cs

/-- Go `filepath.Join` on Unix: leading empty elements are skipped, the rest are
joined with slashes and the result is cleaned. -/
def goJoinList (parts : List GoStr) : GoStr :=
  goClean (joinSep '/' (parts.dropWhile (fun p => p = [])))

/-- Binary `filepath.Join`. -/
def goJoin2 (a b : GoStr) : GoStr := goJoinList [a, b]

/-- Go `filepath.Abs` against a working directory `cwd` (itself absolute):
absolute paths are cleaned, relative ones joined onto `cwd`. The error return of
the real function never fires on Unix with a valid working directory. -/
def goAbs (cwd s : GoStr) : GoStr :=
  if isRooted s then goClean s else goJoin2 cwd s

/-! ## OverlayFS session (part_000) -/

/-- `OverlayFS`: one overlay session's four path fields. -/
structure OverlayFS where
  mergedDir : GoStr
  upperDir : GoStr
  workDir : GoStr
  lowerDirs : List GoStr
deriving DecidableEq

/-- `OverlayFS.insideMerged`: canonicalise `mergedDir`, resolve `path` against it
(`filepath.Abs(filepath.Join(mergedAbs, path))`), and test with
`strings.HasPrefix(absPath, mergedAbs)`. -/
def insideMerged (cwd mergedDir path : GoStr) : Bool :=
  let mergedAbs := goAbs cwd mergedDir
  let absPath := goAbs cwd (goJoin2 mergedAbs path)
  mergedAbs.isPrefixOf absPath

/-- `OverlayFS.OpenFile`: guard with `insideMerged`, then delegate to the host
filesystem (`os.OpenFile`), abstracted as `osOpen`. -/
def openFile {α : Type} (osOpen : GoStr → Except GoStr α) (cwd mergedDir path : GoStr) :
    Except GoStr α :=
  if insideMerged cwd mergedDir path then osOpen (goJoin2 mergedDir path)
  else Except.error "path outside root".toList

/-- `OverlayFS.Mkdir`: same guard, delegating to `os.Mkdir`. -/
def mkdirFS {α : Type} (osMkdir : GoStr → Except GoStr α) (cwd mergedDir path : GoStr) :
    Except GoStr α :=
  if insideMerged cwd mergedDir path then osMkdir (goJoin2 mergedDir path)
  else Except.error "path outside root".toList

/-- `OverlayFS.ReadDir`: same guard, delegating to `os.ReadDir`. -/
def readDirFS {α : Type} (osReadDir : GoStr → Except GoStr α) (cwd mergedDir path : GoStr) :
    Except GoStr α :=
  if insideMerged cwd mergedDir path then osReadDir (goJoin2 mergedDir path)
  else Except.error "path outside root".toList

/-- `OverlayFS.DirExists`: same guard, returning `false` outside it. -/
def dirExistsFS (osDirEx : GoStr → Bool) (cwd mergedDir path : GoStr) : Bool :=
  if insideMerged cwd mergedDir path then osDirEx (goJoin2 mergedDir path)
  else false

/-- Modelled from the CLAIM's words, for comparison with the source's
`insideMerged`: the resolution of `path` against the merged directory "lies
outside the merged directory", i.e. the resolved absolute path is neither the
merged directory itself nor strictly below it. -/
def resolvesOutside (cwd mergedDir path : GoStr) : Bool :=
  let mergedAbs := goAbs cwd mergedDir
  let absPath := goAbs cwd (goJoin2 mergedAbs path)
  !(absPath == mergedAbs || (mergedAbs ++ ['/']).isPrefixOf absPath)

/-- Go `strconv.Atoi`, as the pair (value, error) collapses in the caller: the
value is returned and the error ignored, a syntax error yielding 0. Overflow
clamping is omitted; every in-scope input is either syntactically invalid
(a path containing slashes) or small. -/
def digitsToNatAux (acc : Nat) : GoStr → Option Nat
  | [] => some acc
  | c :: cs =>
    if '0' ≤ c ∧ c ≤ '9' then digitsToNatAux (acc * 10 + (c.toNat - '0'.toNat)) cs
    else none

/-- See `digitsToNatAux`; the value `strconv.Atoi` returns, 0 on any error. -/
def goAtoi (s : GoStr) : Int :=
  match s with
  | [] => 0
  | '+' :: rest =>
    match rest with
    | [] => 0
    | _ => ((digitsToNatAux 0 rest).getD 0 : Nat)
  | '-' :: rest =>
    match rest with
    | [] => 0
    | _ => -(((digitsToNatAux 0 rest).getD 0 : Nat) : Int)
  | _ => ((digitsToNatAux 0 s).getD 0 : Nat)

/-- Insert `x` into `acc` before the first element `y` with `less x y`. Folding
this over the input reproduces Go's insertion sort (`sort.Slice` for the slice
lengths in scope): stable, and the identity when `less` never holds. -/
def insertR {α : Type} (less : α → α → Bool) (x : α) : List α → List α
  | [] => [x]
  | y :: ys => if less x y then x :: y :: ys else y :: insertR less x ys

/-- Comparison-based sort with Go's `sort.Slice` observable behaviour for the
inputs in scope (see `insertR`). -/
def sortGo {α : Type} (less : α → α → Bool) (l : List α) : List α :=
  l.foldl (fun acc x => insertR less x acc) []

/-- Go byte-wise string `<`, on `Char`s (identical on ASCII data). `os.ReadDir`
returns entries sorted by this order. -/
def lexLess : GoStr → GoStr → Bool
  | [], [] => false
  | [], _ :: _ => true
  | _ :: _, [] => false
  | a :: as, b :: bs => if a < b then true else if b < a then false else lexLess as bs

/-- Go `strconv.FormatInt(n, 10)`. -/
def intToStr (n : Int) : GoStr :=
  if n < 0 then '-' :: Nat.toDigits 10 (-n).toNat else Nat.toDigits 10 n.toNat

/-- `OverlayFSManager.NewSession`. `now` is `time.Now().Unix()`; `layerEntries`
is the list of names of the directory entries of `<sandbox>/layers/` that are
directories (`os.ReadDir` returns entries sorted by filename, modelled by
`sortGo lexLess`). The mkdir calls for missing `sandboxes/<key>` and `layers`
directories do not affect the returned record and are not modelled. -/
def newSession (baseDir sandboxKey : GoStr) (now : Int) (layerEntries : List GoStr) :
    OverlayFS :=
  let sandboxPath := goJoinList [baseDir, "sandboxes".toList, sandboxKey]
  let timeKey := intToStr now
  let mergeLayerPath := goJoinList [sandboxPath, "merge-".toList ++ timeKey]
  let workLayerPath := goJoinList [sandboxPath, "work-".toList ++ timeKey]
  let upperLayerPath := goJoinList [sandboxPath, "layers".toList, timeKey]
  let sorted := sortGo lexLess layerEntries
  let lowerLayers := sorted.map (fun n => goJoinList [sandboxPath, "layers".toList, n])
  let lowerLayers := sortGo (fun a b => decide (goAtoi a < goAtoi b)) lowerLayers
  let lowerLayers := lowerLayers ++ [goJoinList [baseDir, "defaultfs".toList]]
  ⟨mergeLayerPath, upperLayerPath, workLayerPath, lowerLayers⟩

/-- The existence view of the host filesystem after `OverlayFS.Close` succeeds:
`os.Remove(mergedDir)` deletes the merged directory, `os.RemoveAll(workDir)`
deletes the work directory and everything below it, and nothing else changes
(the unmount does not delete paths). -/
def closeFS (fsEx : GoStr → Bool) (ofs : OverlayFS) : GoStr → Bool :=
  fun p =>
    if p = ofs.mergedDir then false
    else if p = ofs.workDir || (ofs.workDir ++ ['/']).isPrefixOf p then false
    else fsEx p

/-- The three `os.Mkdir` calls `OverlayFS.Mount` performs, in order, with the
permission argument exactly as the source writes it (the Go literal `700`). -/
def mountMkdirs (ofs : OverlayFS) : List (GoStr × Nat) :=
  [(ofs.mergedDir, 700), (ofs.workDir, 700), (ofs.upperDir, 700)]

/-! ## Corpus store and auth policy (server.go) -/

/-- The statistics fields of `OSSHServer.Stats` that the claims concern:
the three per-host login counters and the four multisets. -/
structure Stats where
  attempts : GoMap
  failed : GoMap
  ok : GoMap
  users : GoMap
  passwords : GoMap
  hosts : GoMap
  fingerprints : GoMap
deriving DecidableEq

/-- The zero-value server statistics (`NewOSSHServer`). -/
def initStats : Stats := ⟨[], [], [], [], [], [], []⟩

/-- `OSSHServer.addUser`. -/
def addUser (st : Stats) (u : GoStr) : Stats := { st with users := addMS st.users u }

/-- `OSSHServer.addPassword`. -/
def addPassword (st : Stats) (p : GoStr) : Stats :=
  { st with passwords := addMS st.passwords p }

/-- `OSSHServer.addFingerprint`. -/
def addFingerprint (st : Stats) (s : GoStr) : Stats :=
  { st with fingerprints := addMS st.fingerprints s }

/-- `OSSHServer.addHost`: trims, drops empty, and on a first sighting also
initialises the three login counters of the trimmed host to 0 before the
insert-and-increment of the `Hosts` multiset. -/
def addHost (st : Stats) (h : GoStr) : Stats :=
  let h' := trimSpace h
  if h' = [] then st
  else
    let st' :=
      if hasKeyA st.hosts h' then st
      else { st with attempts := setA st.attempts h' 0,
                     failed := setA st.failed h' 0,
                     ok := setA st.ok h' 0 }
    { st' with hosts := addMS st'.hosts h }

/-- `OSSHServer.incCounter`: `stat[host] = stat[host] + 1` with Go's zero-value
read of a missing key. -/
def incCounter (m : GoMap) (h : GoStr) : GoMap := setA m h (getD m h + 1)

/-- `OSSHServer.addLoginFailure`: substitute `(empty)` for the exactly-empty
password, feed user/password/host into the multisets, then bump `Attempts`
and `Failed` for the (untrimmed) host. -/
def addLoginFailure (st : Stats) (u p h : GoStr) : Stats :=
  let p' := if p = [] then "(empty)".toList else p
  let st1 := addHost (addPassword (addUser st u) p') h
  { st1 with attempts := incCounter st1.attempts h, failed := incCounter st1.failed h }

/-- `OSSHServer.addLoginSuccess`: as `addLoginFailure` with `OK` in place of
`Failed`. -/
def addLoginSuccess (st : Stats) (u p h : GoStr) : Stats :=
  let p' := if p = [] then "(empty)".toList else p
  let st1 := addHost (addPassword (addUser st u) p') h
  { st1 with attempts := incCounter st1.attempts h, ok := incCounter st1.ok h }

/-- One configured sync peer (`Conf.Sync.Nodes` entry). -/
structure SyncNode where
  host : GoStr
  port : Int
  user : GoStr
  password : GoStr
deriving DecidableEq

/-- The outcome of `OSSHServer.authHandler`: the returned boolean, the reason
string passed to the login recorder (empty on the peer path, which logs
nothing), the peer classification, and the updated state. -/
structure AuthDecision where
  accept : Bool
  reason : GoStr
  isPeer : Bool
  stats : Stats
  syncClients : List (GoStr × Bool)
deriving DecidableEq

/-- `OSSHServer.authHandler`: the sync-peer loop (first exact triple match
returns early; any non-empty node list otherwise leaves `syncClients[host]`
false), then the decision ladder in source order. `now` is
`time.Now().Unix()`; the Go test `now % 3 != 0` agrees with `Int.emod` since
both are zero exactly on multiples of 3. -/
def authHandler (nodes : List SyncNode) (sync : List (GoStr × Bool)) (st : Stats)
    (u p h : GoStr) (now : Int) : AuthDecision :=
  if nodes.any (fun n => u == n.user && p == n.password && n.host == h) then
    { accept := true, reason := [], isPeer := true, stats := st,
      syncClients := setA sync h true }
  else
    let sync' := if nodes.isEmpty then sync else setA sync h false
    if hasKeyA st.hosts h then
      { accept := true, reason := "host is back for more".toList, isPeer := false,
        stats := addLoginSuccess st u p h, syncClients := sync' }
    else if hasKeyA st.users u && hasKeyA st.passwords p then
      { accept := false, reason := "host does not have new credentials".toList,
        isPeer := false, stats := addLoginFailure st u p h, syncClients := sync' }
    else if hasKeyA st.users u then
      { accept := true, reason := "host got the user name right".toList, isPeer := false,
        stats := addLoginSuccess st u p h, syncClients := sync' }
    else if hasKeyA st.passwords p then
      { accept := true, reason := "host got the password right".toList, isPeer := false,
        stats := addLoginSuccess st u p h, syncClients := sync' }
    else if now % 3 ≠ 0 then
      { accept := false, reason := "host lost a game of dice".toList, isPeer := false,
        stats := addLoginFailure st u p h, syncClients := sync' }
    else
      { accept := true, reason := "host dodged all obstacles".toList, isPeer := false,
        stats := addLoginSuccess st u p h, syncClients := sync' }

/-! ## Capture files and persistence (server.go) -/

/-- The state `OSSHServer.saveCapture` touches: the capture directory's files
(path to content) and the `Fingerprints` multiset. -/
structure CaptureState where
  files : List (GoStr × GoStr)
  fingerprints : GoMap
deriving DecidableEq

/-- `FileExists` on the modelled capture directory. -/
def fileExistsC (fs : List (GoStr × GoStr)) (name : GoStr) : Bool :=
  hasKeyA fs name

/-- The capture path `fmt.Sprintf("%s/ocap-%s-%s.sh", Conf.PathCaptures, host, sha1)`. -/
def captureFileName (capturesPath host sha : GoStr) : GoStr :=
  capturesPath ++ "/ocap-".toList ++ host ++ ['-'] ++ sha ++ ".sh".toList

/-- `OSSHServer.saveCapture`. `sha1` abstracts `StringToSha1`; `render`
abstracts the `command-history` template over host, user, date and joined
commands; `capturesPath` is `Conf.PathCaptures`. Returns immediately when the
target file exists, otherwise registers the fingerprint and writes the file. -/
def saveCapture (sha1 : GoStr → GoStr) (render : GoStr → GoStr → GoStr → GoStr → GoStr)
    (capturesPath : GoStr) (st : CaptureState) (host user date : GoStr)
    (commandHistory : List GoStr) : CaptureState :=
  let commands := joinSep '\n' commandHistory
  let resSha1 := sha1 commands
  let f := captureFileName capturesPath host resSha1
  if fileExistsC st.files f then st
  else
    { files := setA st.files f ('\n' :: render host user date commands ++ "\n\n".toList),
      fingerprints := addMS st.fingerprints resSha1 }

/-- `OSSHServer.saveHosts` / `saveUsers` / `savePasswords` / `saveFingerprints`:
the written file content, `strings.Join(maps.Keys(m), "\n") + "\n"`. -/
def saveKeysFile (m : GoMap) : GoStr := joinSep '\n' (m.map Prod.fst) ++ ['\n']

/-- `OSSHServer.loadHosts` etc.: split the file content on newlines and feed
every piece to the respective add function (here the shared `addMS`). -/
def loadKeysFile (content : GoStr) (m : GoMap) : GoMap :=
  (splitChar '\n' content).foldl addMS m

/-! ## Corpus operation sequences (claim C5) -/

/-- The corpus-mutating operations of server.go: the four adds, the two login
recorders, and the four startup loads (each a fold of its add over the lines of
a file's content). -/
inductive CorpusOp where
  | user (s : GoStr)
  | password (s : GoStr)
  | fingerprint (s : GoStr)
  | host (s : GoStr)
  | loginFailure (u p h : GoStr)
  | loginSuccess (u p h : GoStr)
  | loadUsersFile (content : GoStr)
  | loadPasswordsFile (content : GoStr)
  | loadFingerprintsFile (content : GoStr)
  | loadHostsFile (content : GoStr)

/-- Apply one corpus operation to the statistics. -/
def applyOp (st : Stats) : CorpusOp → Stats
  | CorpusOp.user s => addUser st s
  | CorpusOp.password s => addPassword st s
  | CorpusOp.fingerprint s => addFingerprint st s
  | CorpusOp.host s => addHost st s
  | CorpusOp.loginFailure u p h => addLoginFailure st u p h
  | CorpusOp.loginSuccess u p h => addLoginSuccess st u p h
  | CorpusOp.loadUsersFile content => (splitChar '\n' content).foldl addUser st
  | CorpusOp.loadPasswordsFile content => (splitChar '\n' content).foldl addPassword st
  | CorpusOp.loadFingerprintsFile content => (splitChar '\n' content).foldl addFingerprint st
  | CorpusOp.loadHostsFile content => (splitChar '\n' content).foldl addHost st

/-- Run a sequence of corpus operations from the zero-value server state. -/
def runOps (ops : List CorpusOp) : Stats := ops.foldl applyOp initStats

/-! ## Claim theorems -/

/-- Claim C1 (code bug). The claim says `NewSession` returns the existing
`layers/` entries sorted ascending by numeric directory name with `defaultfs`
appended; the code instead applies `strconv.Atoi` to the full layer paths
(which always fails, yielding 0 for every element), so the sort is a no-op on
`os.ReadDir`'s lexicographic order. With layers `999` and `1000` the produced
lower list is `layers/1000 : layers/999 : defaultfs` — not the claimed
numerically ascending `layers/999 : layers/1000 : defaultfs`. -/
theorem newSession_lowerDirs_not_numerically_sorted :
    (newSession "/base".toList "k".toList 1001 ["999".toList, "1000".toList]).lowerDirs
      = ["/base/sandboxes/k/layers/1000".toList, "/base/sandboxes/k/layers/999".toList,
         "/base/defaultfs".toList]
    ∧ (newSession "/base".toList "k".toList 1001 ["999".toList, "1000".toList]).lowerDirs
      ≠ ["/base/sandboxes/k/layers/999".toList, "/base/sandboxes/k/layers/1000".toList,
         "/base/defaultfs".toList] := by
  constructor
  · decide
  · decide

/-- Claim C7 (code bug). The claim says `Mount` creates `merged`, `work` and
`upper` with owner-only octal mode 0700; the source passes the decimal literal
`700` (= octal 1274) to every `os.Mkdir` call, which is not octal 0700. -/
theorem mount_mkdir_mode_decimal_700 (ofs : OverlayFS) :
    (mountMkdirs ofs).map Prod.snd = [700, 700, 700] ∧ (700 : Nat) ≠ 0o700 := by
  constructor
  · rfl
  · decide

/-- Helper: if no sync node matches the triple, the peer loop's `any` is false. -/
theorem syncAny_eq_false (nodes : List SyncNode) (u p h : GoStr)
    (hn : nodes.all (fun n => !(u == n.user && p == n.password && n.host == h)) = true) :
    nodes.any (fun n => u == n.user && p == n.password && n.host == h) = false := by
  rw [List.any_eq_false]
  intro n hm
  have := List.all_eq_true.mp hn n hm
  simp only [Bool.not_eq_true'] at this
  simp [this]

/-- Claim C3 (confirmed). For any attempt matching no sync-peer triple whose
host is already in `Hosts`, `authHandler` accepts with reason
"host is back for more" and records a login success — the host rule fires
before the known-user-and-known-password rejection, whatever `users` and
`passwords` contain. -/
theorem authHandler_known_host_precedence (nodes : List SyncNode)
    (sync : List (GoStr × Bool)) (st : Stats) (u p h : GoStr) (now : Int)
    (hn : nodes.all (fun n => !(u == n.user && p == n.password && n.host == h)) = true)
    (hh : hasKeyA st.hosts h = true) :
    (authHandler nodes sync st u p h now).accept = true ∧
    (authHandler nodes sync st u p h now).reason = "host is back for more".toList ∧
    (authHandler nodes sync st u p h now).stats = addLoginSuccess st u p h := by
  have hany := syncAny_eq_false nodes u p h hn
  simp [authHandler, hany, hh]

/-- Concrete corpus for the C3 witness: user `root`, password `pw` and host
`1.2.3.4` are all individually known. -/
def stKnownAll : Stats :=
  ⟨[], [], [], [("root".toList, 1)], [("pw".toList, 1)], [("1.2.3.4".toList, 1)], []⟩

/-- Concrete sync-node list for the C3/C4 witnesses. -/
def nodesW : List SyncNode := [⟨"9.9.9.9".toList, 22, "sync".toList, "secret".toList⟩]

/-- Witness for C3: at a concrete attempt whose user and password are both
known, a known host is still accepted as "host is back for more". -/
theorem authHandler_known_host_precedence_witness :
    (nodesW.all (fun n =>
        !("root".toList == n.user && "pw".toList == n.password &&
          n.host == "1.2.3.4".toList)) = true ∧
      hasKeyA stKnownAll.hosts "1.2.3.4".toList = true) ∧
    ((authHandler nodesW [] stKnownAll "root".toList "pw".toList "1.2.3.4".toList 7).accept
        = true ∧
      (authHandler nodesW [] stKnownAll "root".toList "pw".toList "1.2.3.4".toList 7).reason
        = "host is back for more".toList ∧
      (authHandler nodesW [] stKnownAll "root".toList "pw".toList "1.2.3.4".toList 7).stats
        = addLoginSuccess stKnownAll "root".toList "pw".toList "1.2.3.4".toList) :=
  ⟨⟨by decide, by decide⟩,
    authHandler_known_host_precedence nodesW [] stKnownAll "root".toList "pw".toList
      "1.2.3.4".toList 7 (by decide) (by decide)⟩

/-- Claim C4 (confirmed). For an attempt matching no sync-peer triple with
unknown host, user and password, `authHandler` accepts exactly when
`now mod 3 = 0`, with reason "host dodged all obstacles" on accept and
"host lost a game of dice" on reject. -/
theorem authHandler_dice_roll (nodes : List SyncNode) (sync : List (GoStr × Bool))
    (st : Stats) (u p h : GoStr) (now : Int)
    (hn : nodes.all (fun n => !(u == n.user && p == n.password && n.host == h)) = true)
    (hh : hasKeyA st.hosts h = false) (hu : hasKeyA st.users u = false)
    (hp : hasKeyA st.passwords p = false) :
    ((authHandler nodes sync st u p h now).accept = true ↔ now % 3 = 0) ∧
    (authHandler nodes sync st u p h now).reason =
      (if now % 3 = 0 then "host dodged all obstacles".toList
       else "host lost a game of dice".toList) := by
  have hany := syncAny_eq_false nodes u p h hn
  by_cases hnow : now % 3 = 0
  · simp [authHandler, hany, hh, hu, hp, hnow]
  · simp [authHandler, hany, hh, hu, hp, hnow]

/-- Witness for C4, at `now = 9` (accept) and `now = 10` (reject) against the
empty corpus. -/
theorem authHandler_dice_roll_witness :
    (nodesW.all (fun n =>
        !("a".toList == n.user && "b".toList == n.password &&
          n.host == "7.7.7.7".toList)) = true ∧
      hasKeyA initStats.hosts "7.7.7.7".toList = false ∧
      hasKeyA initStats.users "a".toList = false ∧
      hasKeyA initStats.passwords "b".toList = false) ∧
    (((authHandler nodesW [] initStats "a".toList "b".toList "7.7.7.7".toList 9).accept
        = true ↔ (9 : Int) % 3 = 0) ∧
      (authHandler nodesW [] initStats "a".toList "b".toList "7.7.7.7".toList 9).reason =
        (if (9 : Int) % 3 = 0 then "host dodged all obstacles".toList
         else "host lost a game of dice".toList)) ∧
    (((authHandler nodesW [] initStats "a".toList "b".toList "7.7.7.7".toList 10).accept
        = true ↔ (10 : Int) % 3 = 0) ∧
      (authHandler nodesW [] initStats "a".toList "b".toList "7.7.7.7".toList 10).reason =
        (if (10 : Int) % 3 = 0 then "host dodged all obstacles".toList
         else "host lost a game of dice".toList)) :=
  ⟨⟨by decide, by decide, by decide, by decide⟩,
    authHandler_dice_roll nodesW [] initStats "a".toList "b".toList "7.7.7.7".toList 9
      (by decide) (by decide) (by decide) (by decide),
    authHandler_dice_roll nodesW [] initStats "a".toList "b".toList "7.7.7.7".toList 10
      (by decide) (by decide) (by decide) (by decide)⟩

/-- Counterexample to claim C2. With merged directory `/s/merge-1`, the path
`../merge-12/x` contains a `..` segment and resolves to `/s/merge-12/x`, which
lies outside the merged directory (it is a sibling whose name merely extends
`merge-1`); yet the string-prefix test of `insideMerged` passes it, so
`OpenFile` does not fail with "path outside root" and `DirExists` does not
return false. -/
theorem insideMerged_sibling_escape_counterexample :
    resolvesOutside "/".toList "/s/merge-1".toList "../merge-12/x".toList = true ∧
    List.IsInfix "..".toList "../merge-12/x".toList ∧
    insideMerged "/".toList "/s/merge-1".toList "../merge-12/x".toList = true ∧
    dirExistsFS (fun _ => true) "/".toList "/s/merge-1".toList "../merge-12/x".toList
      = true ∧
    openFile (fun _ => Except.ok ()) "/".toList "/s/merge-1".toList "../merge-12/x".toList
      = Except.ok () := by
  refine ⟨by decide, ⟨[], "/merge-12/x".toList, by decide⟩, by decide, by decide, ?_⟩
  rfl

/-- Claim C2 (corrected). What the guard actually enforces: every path whose
resolution against the canonical merged directory does NOT carry the canonical
merged directory as a string prefix is rejected — `OpenFile`, `Mkdir` and
`ReadDir` fail with "path outside root" and `DirExists` returns false, however
many `..` components the path contains and whatever the underlying filesystem
would answer. (Per the counterexample, a resolution outside the merged
directory that extends its name as a string — a sibling like `merge-12` under
merged `merge-1` — is not rejected.) -/
theorem fileAPI_rejects_nonprefix_paths {α β γ : Type}
    (osOpen : GoStr → Except GoStr α) (osMkdir : GoStr → Except GoStr β)
    (osReadDir : GoStr → Except GoStr γ) (osDirEx : GoStr → Bool)
    (cwd mergedDir path : GoStr)
    (h : (goAbs cwd mergedDir).isPrefixOf
        (goAbs cwd (goJoin2 (goAbs cwd mergedDir) path)) = false) :
    openFile osOpen cwd mergedDir path = Except.error "path outside root".toList ∧
    mkdirFS osMkdir cwd mergedDir path = Except.error "path outside root".toList ∧
    readDirFS osReadDir cwd mergedDir path = Except.error "path outside root".toList ∧
    dirExistsFS osDirEx cwd mergedDir path = false := by
  have hin : insideMerged cwd mergedDir path = false := h
  simp [openFile, mkdirFS, readDirFS, dirExistsFS, hin]

/-- Witness for the corrected C2: `../../etc/shadow` from merged `/s/m`
resolves to `/etc/shadow`, fails the prefix test, and all four operations
refuse it. -/
theorem fileAPI_rejects_nonprefix_paths_witness :
    ((goAbs "/".toList "/s/m".toList).isPrefixOf
        (goAbs "/".toList
          (goJoin2 (goAbs "/".toList "/s/m".toList) "../../etc/shadow".toList)) = false) ∧
    (openFile (fun _ => Except.ok ()) "/".toList "/s/m".toList "../../etc/shadow".toList
        = Except.error "path outside root".toList ∧
      mkdirFS (fun _ => Except.ok ()) "/".toList "/s/m".toList "../../etc/shadow".toList
        = Except.error "path outside root".toList ∧
      readDirFS (fun _ => Except.ok ([] : List GoStr)) "/".toList "/s/m".toList
          "../../etc/shadow".toList
        = Except.error "path outside root".toList ∧
      dirExistsFS (fun _ => true) "/".toList "/s/m".toList "../../etc/shadow".toList
        = false) :=
  ⟨by decide,
    fileAPI_rejects_nonprefix_paths (fun _ => Except.ok ()) (fun _ => Except.ok ())
      (fun _ => Except.ok ([] : List GoStr)) (fun _ => true) "/".toList "/s/m".toList
      "../../etc/shadow".toList (by decide)⟩

/-- Helper: a key just written is present. -/
theorem hasKeyA_setA_self {β : Type} (m : List (GoStr × β)) (k : GoStr) (v : β) :
    hasKeyA (setA m k v) k = true := by
  simp [hasKeyA, lookupA_setA]

/-- Claim C6 (confirmed). `Close` removes the merged directory and the entire
work tree from the filesystem view, and never removes the upper directory:
any upper path distinct from `merged` and not inside the `work` tree — as is
every `layers/<t>` upper against its session's `merge-<t>` and `work-<t>` —
still exists exactly when it existed before. -/
theorem close_preserves_upper (fsEx : GoStr → Bool) (ofs : OverlayFS) (p : GoStr)
    (h1 : (ofs.upperDir == ofs.mergedDir) = false)
    (h2 : (ofs.upperDir == ofs.workDir) = false)
    (h3 : (ofs.workDir ++ ['/']).isPrefixOf ofs.upperDir = false)
    (hp : (p == ofs.workDir) = true ∨ (ofs.workDir ++ ['/']).isPrefixOf p = true) :
    closeFS fsEx ofs ofs.mergedDir = false ∧
    closeFS fsEx ofs p = false ∧
    closeFS fsEx ofs ofs.upperDir = fsEx ofs.upperDir := by
  refine ⟨by simp [closeFS], ?_, ?_⟩
  · by_cases hm : p = ofs.mergedDir
    · simp [closeFS, hm]
    · rcases hp with hp | hp
      · simp only [beq_iff_eq] at hp
        simp [closeFS, hm, hp]
      · simp [closeFS, hm, hp]
  · simp only [beq_eq_false_iff_ne, ne_eq] at h1 h2
    simp [closeFS, h1, h2, h3]

/-- Witness for C6: the session minted by `newSession` for sandbox `k` at time
1000 has its upper at `layers/1000`, which `Close` leaves intact while
`merge-1000` and the `work-1000` tree are removed. -/
theorem close_preserves_upper_witness :
    (((newSession "/base".toList "k".toList 1000 []).upperDir ==
        (newSession "/base".toList "k".toList 1000 []).mergedDir) = false ∧
      ((newSession "/base".toList "k".toList 1000 []).upperDir ==
        (newSession "/base".toList "k".toList 1000 []).workDir) = false ∧
      ((newSession "/base".toList "k".toList 1000 []).workDir ++ ['/']).isPrefixOf
        (newSession "/base".toList "k".toList 1000 []).upperDir = false) ∧
    (closeFS (fun _ => true) (newSession "/base".toList "k".toList 1000 [])
        (newSession "/base".toList "k".toList 1000 []).mergedDir = false ∧
      closeFS (fun _ => true) (newSession "/base".toList "k".toList 1000 [])
        ("/base/sandboxes/k/work-1000/f".toList) = false ∧
      closeFS (fun _ => true) (newSession "/base".toList "k".toList 1000 [])
        (newSession "/base".toList "k".toList 1000 []).upperDir =
        (fun (_ : GoStr) => true) (newSession "/base".toList "k".toList 1000 []).upperDir) :=
  ⟨⟨by decide, by decide, by decide⟩,
    close_preserves_upper (fun _ => true) (newSession "/base".toList "k".toList 1000 [])
      ("/base/sandboxes/k/work-1000/f".toList) (by decide) (by decide) (by decide)
      (Or.inr (by decide))⟩

/-- Claim C8 (confirmed). `saveCapture` is idempotent for identical command
histories of the same host: the capture file name depends only on the host and
the SHA-1 of the joined history, so the second call finds the file written (or
already present) by the first and returns at once — no file is written and the
fingerprint count is not incremented again, even if user or date differ. -/
theorem saveCapture_idempotent (sha1 : GoStr → GoStr)
    (render : GoStr → GoStr → GoStr → GoStr → GoStr) (capturesPath : GoStr)
    (st : CaptureState) (host u1 d1 u2 d2 : GoStr) (history : List GoStr) :
    saveCapture sha1 render capturesPath
        (saveCapture sha1 render capturesPath st host u1 d1 history) host u2 d2 history
      = saveCapture sha1 render capturesPath st host u1 d1 history := by
  simp only [saveCapture]
  by_cases hf : fileExistsC st.files
      (captureFileName capturesPath host (sha1 (joinSep '\n' history))) = true
  · simp [hf]
  · simp only [Bool.not_eq_true, fileExistsC] at hf
    simp [fileExistsC, hf, hasKeyA_setA_self]

/-- The C5 invariant: every host key's attempt counter is the sum of its
failure and success counters. -/
def countersBalanced (st : Stats) : Prop :=
  ∀ k, getD st.attempts k = getD st.failed k + getD st.ok k

theorem countersBalanced_initStats : countersBalanced initStats := by
  intro k
  simp [initStats, getD, lookupA]

theorem countersBalanced_addUser (st : Stats) (u : GoStr)
    (ih : countersBalanced st) : countersBalanced (addUser st u) := ih

theorem countersBalanced_addPassword (st : Stats) (p : GoStr)
    (ih : countersBalanced st) : countersBalanced (addPassword st p) := ih

theorem countersBalanced_addFingerprint (st : Stats) (s : GoStr)
    (ih : countersBalanced st) : countersBalanced (addFingerprint st s) := ih

theorem countersBalanced_addHost (st : Stats) (h : GoStr)
    (ih : countersBalanced st) : countersBalanced (addHost st h) := by
  intro k
  unfold addHost
  by_cases h0 : trimSpace h = []
  · simp only [h0, if_pos rfl]
    exact ih k
  · by_cases h1 : hasKeyA st.hosts (trimSpace h) = true
    · simp only [h0, if_neg, h1, if_pos, ite_true, ite_false]
      exact ih k
    · simp only [h0, h1, ite_false, Bool.false_eq_true, if_neg, ite_true]
      simp only [getD_setA]
      by_cases hk : trimSpace h = k
      · simp [hk]
      · simp [hk, ih k]

theorem countersBalanced_addLoginFailure (st : Stats) (u p h : GoStr)
    (ih : countersBalanced st) : countersBalanced (addLoginFailure st u p h) := by
  intro k
  have hb : countersBalanced (addHost (addPassword (addUser st u)
      (if p = [] then "(empty)".toList else p)) h) :=
    countersBalanced_addHost _ h (countersBalanced_addPassword _ _
      (countersBalanced_addUser _ _ ih))
  unfold addLoginFailure incCounter
  simp only [getD_setA]
  by_cases hk : h = k
  · subst hk
    simp only [eq_self_iff_true, if_true, ite_true]
    have hbh := hb h
    omega
  · simp only [if_neg hk]
    have hbk := hb k
    omega

theorem countersBalanced_addLoginSuccess (st : Stats) (u p h : GoStr)
    (ih : countersBalanced st) : countersBalanced (addLoginSuccess st u p h) := by
  intro k
  have hb : countersBalanced (addHost (addPassword (addUser st u)
      (if p = [] then "(empty)".toList else p)) h) :=
    countersBalanced_addHost _ h (countersBalanced_addPassword _ _
      (countersBalanced_addUser _ _ ih))
  unfold addLoginSuccess incCounter
  simp only [getD_setA]
  by_cases hk : h = k
  · subst hk
    simp only [eq_self_iff_true, if_true, ite_true]
    have hbh := hb h
    omega
  · simp only [if_neg hk]
    have hbk := hb k
    omega

theorem countersBalanced_foldl (f : Stats → GoStr → Stats)
    (hf : ∀ st s, countersBalanced st → countersBalanced (f st s)) :
    ∀ (l : List GoStr) (st : Stats), countersBalanced st →
      countersBalanced (List.foldl f st l) := by
  intro l
  induction l with
  | nil => intro st ih; exact ih
  | cons s t iht => intro st ih; exact iht (f st s) (hf st s ih)

theorem countersBalanced_applyOp (st : Stats) (op : CorpusOp)
    (ih : countersBalanced st) : countersBalanced (applyOp st op) := by
  cases op with
  | user s => exact countersBalanced_addUser st s ih
  | password s => exact countersBalanced_addPassword st s ih
  | fingerprint s => exact countersBalanced_addFingerprint st s ih
  | host s => exact countersBalanced_addHost st s ih
  | loginFailure u p h => exact countersBalanced_addLoginFailure st u p h ih
  | loginSuccess u p h => exact countersBalanced_addLoginSuccess st u p h ih
  | loadUsersFile content =>
    exact countersBalanced_foldl addUser countersBalanced_addUser _ st ih
  | loadPasswordsFile content =>
    exact countersBalanced_foldl addPassword countersBalanced_addPassword _ st ih
  | loadFingerprintsFile content =>
    exact countersBalanced_foldl addFingerprint countersBalanced_addFingerprint _ st ih
  | loadHostsFile content =>
    exact countersBalanced_foldl addHost countersBalanced_addHost _ st ih

/-- Claim C5 (confirmed). After any sequence of corpus operations — file loads,
plain adds, login-success and login-failure records — run from the zero-value
server state, every key satisfies `Attempts[h] = Failed[h] + OK[h]`. -/
theorem login_counter_invariant (ops : List CorpusOp) (k : GoStr) :
    getD (runOps ops).attempts k = getD (runOps ops).failed k + getD (runOps ops).ok k := by
  have main : ∀ (l : List CorpusOp) (st : Stats), countersBalanced st →
      countersBalanced (List.foldl applyOp st l) := by
    intro l
    induction l with
    | nil => intro st ih; exact ih
    | cons op t iht => intro st ih; exact iht (applyOp st op) (countersBalanced_applyOp st op ih)
  exact main ops initStats countersBalanced_initStats k

/-! ## Persistence round-trip (claim C9) -/

/-- Whether character `c` occurs in `s`. -/
def hasChar (c : Char) (s : GoStr) : Bool := s.any (fun x => x == c)

theorem splitChar_ne_nil (c : Char) (s : GoStr) : splitChar c s ≠ [] := by
  induction s with
  | nil => simp [splitChar]
  | cons x xs ih =>
    cases hs : splitChar c xs with
    | nil => exact absurd hs ih
    | cons h t =>
      simp only [splitChar, hs]
      by_cases hx : x = c <;> simp [hx]

theorem splitChar_append_sep (c : Char) (k rest : GoStr) (h : hasChar c k = false) :
    splitChar c (k ++ c :: rest) = k :: splitChar c rest := by
  induction k with
  | nil =>
    cases hs : splitChar c rest with
    | nil => exact absurd hs (splitChar_ne_nil c rest)
    | cons hh tt => simp [splitChar, hs]
  | cons x k' ih =>
    simp only [hasChar, List.any_cons, Bool.or_eq_false_iff, beq_eq_false_iff_ne,
      ne_eq] at h
    have ih' := ih (by simp [hasChar, h.2])
    rw [List.cons_append]
    simp only [splitChar]
    rw [ih']
    simp [h.1]

theorem joinSep_cons_cons (c : Char) (k k' : GoStr) (ks : List GoStr) :
    joinSep c (k :: k' :: ks) = k ++ c :: joinSep c (k' :: ks) := rfl

theorem splitChar_joinSep_terminal (c : Char) :
    ∀ ks : List GoStr, ks ≠ [] → (∀ k ∈ ks, hasChar c k = false) →
      splitChar c (joinSep c ks ++ [c]) = ks ++ [[]] := by
  intro ks
  induction ks with
  | nil => intro h; exact absurd rfl h
  | cons k ks ih =>
    intro _ hall
    cases ks with
    | nil =>
      have h1 := splitChar_append_sep c k [] (hall k (by simp))
      simpa [joinSep, splitChar] using h1
    | cons k' ks' =>
      have hk := hall k (by simp)
      have hrest : ∀ x ∈ k' :: ks', hasChar c x = false := fun x hx =>
        hall x (List.mem_cons_of_mem k hx)
      have ihr := ih (by simp) hrest
      rw [joinSep_cons_cons, List.cons_append, List.append_assoc, List.cons_append]
      rw [splitChar_append_sep c k _ hk, ihr]

theorem addMS_nil (m : GoMap) : addMS m [] = m := rfl

theorem addMS_dropped (m : GoMap) (s : GoStr) (h : trimSpace s = []) : addMS m s = m := by
  simp [addMS, h]

theorem lookupA_none_of_hasKeyA_false {β : Type} (m : List (GoStr × β)) (k : GoStr)
    (h : hasKeyA m k = false) : lookupA m k = none := by
  cases hl : lookupA m k with
  | none => rfl
  | some v =>
    exfalso
    simp [hasKeyA, hl] at h

theorem setA_append_left {β : Type} (m₁ m₂ : List (GoStr × β)) (k : GoStr) (v : β)
    (h : lookupA m₁ k = none) : setA (m₁ ++ m₂) k v = m₁ ++ setA m₂ k v := by
  induction m₁ with
  | nil => simp
  | cons hd t ih =>
    obtain ⟨k₀, v₀⟩ := hd
    by_cases h₀ : k₀ = k
    · simp [lookupA, h₀] at h
    · simp only [lookupA, if_neg h₀] at h
      simp [setA, h₀, ih h]

theorem addMS_notMem (m : GoMap) (k : GoStr) (ht : trimSpace k = k) (hne : k ≠ [])
    (hk : hasKeyA m k = false) : addMS m k = m ++ [(k, 1)] := by
  have hl : lookupA m k = none := lookupA_none_of_hasKeyA_false m k hk
  have h0 : setA m k 0 = m ++ [(k, 0)] := setA_notMem m k 0 hk
  have hg : getD (m ++ [(k, 0)]) k = 0 := by
    simp [getD, lookupA_append, hl, lookupA]
  simp only [addMS, ht, if_neg hne, hk, Bool.false_eq_true, if_neg, ite_false, h0, hg]
  rw [setA_append_left m [(k, 0)] k 1 hl]
  simp [setA]

theorem foldl_addMS_fresh :
    ∀ (ks : List GoStr) (acc : GoMap),
      (∀ k ∈ ks, trimSpace k = k ∧ k ≠ [] ∧ hasKeyA acc k = false) → ks.Nodup →
      List.foldl addMS acc ks = acc ++ ks.map (fun k => (k, 1)) := by
  intro ks
  induction ks with
  | nil => intro acc _ _; simp
  | cons k ks ih =>
    intro acc hall hnd
    have hk := hall k (by simp)
    have hstep : addMS acc k = acc ++ [(k, 1)] := addMS_notMem acc k hk.1 hk.2.1 hk.2.2
    have hrest : ∀ k' ∈ ks, trimSpace k' = k' ∧ k' ≠ [] ∧
        hasKeyA (acc ++ [(k, 1)]) k' = false := by
      intro k' hk'
      have h' := hall k' (List.mem_cons_of_mem k hk')
      refine ⟨h'.1, h'.2.1, ?_⟩
      rw [hasKeyA_append, h'.2.2]
      have hne : ¬ k = k' := fun he => (List.nodup_cons.mp hnd).1 (he ▸ hk')
      simp [hasKeyA, lookupA, hne]
    have ihr := ih (acc ++ [(k, 1)]) hrest (List.nodup_cons.mp hnd).2
    simp only [List.foldl_cons, hstep, ihr, List.map_cons]
    simp [List.append_assoc]

theorem lookupA_map_one :
    ∀ (ks : List GoStr) (k : GoStr), k ∈ ks →
      lookupA (ks.map (fun s => (s, 1))) k = some 1 := by
  intro ks
  induction ks with
  | nil => intro k hk; exact absurd hk (List.not_mem_nil k)
  | cons k0 ks ih =>
    intro k hk
    by_cases h0 : k0 = k
    · simp [lookupA, h0]
    · have : k ∈ ks := by
        cases List.mem_cons.mp hk with
        | inl h => exact absurd h.symm h0
        | inr h => exact h
      simp [lookupA, h0, ih k this]

/-- Counterexample to claim C9. Loading a saved corpus is not count-zero and
not always key-preserving: (a) for the corpus `{root: 1}`, loading the saved
file leaves `root` with occurrence count 1, not the claimed 0 (each loaded line
passes through the add function, which increments); (b) for a key containing an
embedded newline (which `TrimSpace` does not remove), the saved file splits it
into two different keys, so the key set is not restored. -/
theorem persistence_roundtrip_counterexample :
    getD (loadKeysFile (saveKeysFile (addMS [] "root".toList)) []) "root".toList = 1 ∧
    ¬ getD (loadKeysFile (saveKeysFile (addMS [] "root".toList)) []) "root".toList = 0 ∧
    hasKeyA (addMS [] "a\nb".toList) "a\nb".toList = true ∧
    hasKeyA (loadKeysFile (saveKeysFile (addMS [] "a\nb".toList)) []) "a\nb".toList
      = false := by
  refine ⟨by decide, by decide, by decide, by decide⟩

/-- Claim C9 (corrected). Persistence writes exactly the multiset's keys,
newline-separated with a terminal newline and without counts (that is the
definition of `saveKeysFile`, mirroring the source). Loading the saved file at
startup restores exactly the same key set provided every key is free of
embedded newlines (keys are always trimmed and non-empty), and each restored
key's occurrence count is 1 — one per file line, counted by the add function —
not 0; counts then grow with subsequent observations. -/
theorem persistence_roundtrip_amended (m : GoMap) (k : GoStr)
    (hkeys : (m.map Prod.fst).all
      (fun s => (trimSpace s == s) && !(s == []) && !(hasChar '\n' s)) = true)
    (hnd : (m.map Prod.fst).Nodup) :
    hasKeyA (loadKeysFile (saveKeysFile m) []) k = hasKeyA m k ∧
    (hasKeyA m k = true → getD (loadKeysFile (saveKeysFile m) []) k = 1) := by
  have hprops : ∀ s ∈ m.map Prod.fst,
      trimSpace s = s ∧ s ≠ [] ∧ hasChar '\n' s = false := by
    intro s hs
    have := List.all_eq_true.mp hkeys s hs
    simp only [Bool.and_eq_true, beq_iff_eq, Bool.not_eq_true', beq_eq_false_iff_ne,
      ne_eq] at this
    exact ⟨this.1.1, this.1.2, this.2⟩
  by_cases hm : m = []
  · subst hm
    refine ⟨rfl, fun hk => ?_⟩
    simp [hasKeyA, lookupA] at hk
  · have hne : m.map Prod.fst ≠ [] := by
      intro hmap
      exact hm (List.map_eq_nil_iff.mp hmap)
    have hsplit := splitChar_joinSep_terminal '\n' (m.map Prod.fst) hne
      (fun s hs => (hprops s hs).2.2)
    have hload : loadKeysFile (saveKeysFile m) [] =
        (m.map Prod.fst).map (fun s => (s, 1)) := by
      unfold loadKeysFile saveKeysFile
      rw [hsplit, List.foldl_append]
      simp only [List.foldl_cons, List.foldl_nil, addMS_nil]
      exact foldl_addMS_fresh (m.map Prod.fst) []
        (fun s hs => ⟨(hprops s hs).1, (hprops s hs).2.1, rfl⟩) hnd
    have hmapfst : (((m.map Prod.fst).map (fun s => (s, 1))).map Prod.fst)
        = m.map Prod.fst := by
      simp
    constructor
    · rw [hload]
      cases hb : hasKeyA m k with
      | false =>
        apply Bool.eq_false_iff.mpr
        intro hl
        have hmem := hasKeyA_iff_mem_keys _ k |>.mp hl
        rw [hmapfst] at hmem
        have := (hasKeyA_iff_mem_keys m k).mpr hmem
        rw [hb] at this
        exact Bool.false_ne_true this
      | true =>
        have hmem := (hasKeyA_iff_mem_keys m k).mp hb
        exact (hasKeyA_iff_mem_keys _ k).mpr (by rw [hmapfst]; exact hmem)
    · intro hk
      rw [hload]
      have hmem := (hasKeyA_iff_mem_keys m k).mp hk
      simp only [getD]
      rw [lookupA_map_one (m.map Prod.fst) k hmem]
      rfl

/-- Concrete two-key corpus for the C9 witness. -/
def corpusW : GoMap := [("root".toList, 3), ("admin".toList, 5)]

/-- Witness for the corrected C9: a two-key corpus round-trips its key set,
and the restored count of `root` is 1. -/
theorem persistence_roundtrip_amended_witness :
    ((corpusW.map Prod.fst).all
        (fun s => (trimSpace s == s) && !(s == []) && !(hasChar '\n' s)) = true ∧
      (corpusW.map Prod.fst).Nodup) ∧
    (hasKeyA (loadKeysFile (saveKeysFile corpusW) []) "root".toList
        = hasKeyA corpusW "root".toList ∧
      (hasKeyA corpusW "root".toList = true →
        getD (loadKeysFile (saveKeysFile corpusW) []) "root".toList = 1)) :=
  ⟨⟨by decide, by decide⟩,
    persistence_roundtrip_amended corpusW "root".toList (by decide) (by decide)⟩

/-- Claim C10 (confirmed). When a login success or failure is recorded with a
password consisting only of whitespace (but not empty), the `Passwords`
multiset is untouched — the `(empty)` substitution fires only for the
exactly-empty string, and `addPassword` trims the all-whitespace string to
empty and drops it — while the user and host multisets and the host's login
counters are still updated. -/
theorem whitespace_password_not_recorded (st : Stats) (u p h : GoStr)
    (h1 : (p == []) = false) (h2 : p.all isGoSpace = true) :
    (addLoginFailure st u p h).passwords = st.passwords ∧
    (addLoginSuccess st u p h).passwords = st.passwords ∧
    (addLoginFailure st u p h).users = addMS st.users u ∧
    (addLoginFailure st u p h).hosts = addMS st.hosts h ∧
    (addLoginFailure st u p h).attempts = incCounter (addHost st h).attempts h ∧
    (addLoginFailure st u p h).failed = incCounter (addHost st h).failed h ∧
    (addLoginSuccess st u p h).ok = incCounter (addHost st h).ok h := by
  have hp : ¬ p = [] := by simpa using h1
  have htr : trimSpace p = [] := trimSpace_of_allSpace p (List.all_eq_true.mp h2)
  have haddp : ∀ m : GoMap, addMS m p = m := fun m => addMS_dropped m p htr
  obtain ⟨a, f, o, us, pw, ho, fp⟩ := st
  unfold addLoginFailure addLoginSuccess addUser addPassword addHost
  simp only [if_neg hp, haddp]
  by_cases h0 : trimSpace h = []
  · simp [h0, addMS_dropped ho h h0]
  · by_cases hh : hasKeyA ho (trimSpace h) = true
    · simp [h0, hh]
    · simp [h0, hh]

/-- Witness for C10: a space-only password against an empty corpus leaves
`Passwords` empty while the user, host and counters are recorded. -/
theorem whitespace_password_not_recorded_witness :
    ((" ".toList == ([] : GoStr)) = false ∧ (" ".toList).all isGoSpace = true) ∧
    ((addLoginFailure initStats "root".toList " ".toList "1.2.3.4".toList).passwords
        = initStats.passwords ∧
      (addLoginSuccess initStats "root".toList " ".toList "1.2.3.4".toList).passwords
        = initStats.passwords ∧
      (addLoginFailure initStats "root".toList " ".toList "1.2.3.4".toList).users
        = addMS initStats.users "root".toList ∧
      (addLoginFailure initStats "root".toList " ".toList "1.2.3.4".toList).hosts
        = addMS initStats.hosts "1.2.3.4".toList ∧
      (addLoginFailure initStats "root".toList " ".toList "1.2.3.4".toList).attempts
        = incCounter (addHost initStats "1.2.3.4".toList).attempts "1.2.3.4".toList ∧
      (addLoginFailure initStats "root".toList " ".toList "1.2.3.4".toList).failed
        = incCounter (addHost initStats "1.2.3.4".toList).failed "1.2.3.4".toList ∧
      (addLoginSuccess initStats "root".toList " ".toList "1.2.3.4".toList).ok
        = incCounter (addHost initStats "1.2.3.4".toList).ok "1.2.3.4".toList) :=
  ⟨⟨by decide, by decide⟩,
    whitespace_password_not_recorded initStats "root".toList " ".toList "1.2.3.4".toList
      (by decide) (by decide)⟩
